import Mathlib

/-!
Verification of the windowed stall-detection engine of
`src/consumers/csv_consumer_davidrm.py`.

The Python source is shallowly embedded: temperatures (Python floats) are
modelled as exact rationals `ℚ`; `collections.deque(maxlen=N)` is modelled as
a `List ℚ` kept at its last `N` elements; Python's `max()` / `min()` builtins,
which raise `ValueError` on an empty sequence, are modelled as
`Option`-returning functions (`none` = the exception); `float(s)` / `int(s)`
on strings are modelled by executable decimal parsers returning `Option`;
`json.loads` failures and field lookups are modelled by an explicit message
type over association lists of string fields.

`Rat.sub` is made semireducible here so that closed statements about the
detector evaluate by `decide`; this changes no semantics.
-/

attribute [local semireducible] Rat.sub

deriving instance DecidableEq for Except

/-- One step of Python's `max` loop: the accumulator is replaced exactly when
the next item is strictly larger. -/
def pyMaxStep (acc x : ℚ) : ℚ :=
  if acc < x then x else acc

/-- One step of Python's `min` loop: the accumulator is replaced exactly when
the next item is strictly smaller. -/
def pyMinStep (acc x : ℚ) : ℚ :=
  if x < acc then x else acc

/-- Python `max(xs)` on a sequence of floats: `none` models the `ValueError`
raised on an empty sequence; on `x :: xs` it folds the comparison loop. -/
def pyMax : List ℚ → Option ℚ
  | [] => none
  | x :: xs => some (xs.foldl pyMaxStep x)

/-- Python `min(xs)`: `none` models the `ValueError` on an empty sequence. -/
def pyMin : List ℚ → Option ℚ
  | [] => none
  | x :: xs => some (xs.foldl pyMinStep x)

/-- Embedding of `detect_stall` (csv_consumer_davidrm.py lines 55-69), with
the two environment reads `get_rolling_window_size()` and
`get_stall_threshold()` abstracted as the parameters `N` and `T`:
if `len(rolling_window_deque) < WINDOW_SIZE` return `False`; otherwise
`temp_range = max(...) - min(...)` and the result is `temp_range <= T`.
`none` models the `ValueError` raised by `max`/`min` on an empty deque. -/
def detect_stall (w : List ℚ) (N : ℕ) (T : ℚ) : Option Bool :=
  if w.length < N then some false
  else
    match pyMax w, pyMin w with
    | some mx, some mn => some (decide (mx - mn ≤ T))
    | _, _ => none

/-- The quantity `temp_range = max(rolling_window_deque) - min(rolling_window_deque)`
computed at line 62 of csv_consumer_davidrm.py. -/
def temp_range (w : List ℚ) : Option ℚ :=
  match pyMax w, pyMin w with
  | some mx, some mn => some (mx - mn)
  | _, _ => none

/-- One `append` on `collections.deque(maxlen=N)` (line 122 creates the deque,
line 95 appends): the new value goes to the right and only the most recent `N`
elements are kept, the oldest being evicted first. -/
def dequeAppend (N : ℕ) (w : List ℚ) (x : ℚ) : List ℚ :=
  (w ++ [x]).drop ((w ++ [x]).length - N)

/-- The rolling window obtained by appending the values `vs`, in order, to a
fresh `deque(maxlen=N)`. -/
def buildWindow (N : ℕ) (vs : List ℚ) : List ℚ :=
  vs.foldl (dequeAppend N) []

/-- Embedding of `temperature_str.replace(" C", "")` at line 90 of
csv_consumer_davidrm.py: every occurrence of the two-character substring " C"
is removed, scanning left to right without overlap, exactly as Python's
`str.replace` does. -/
def replaceSC : List Char → List Char
  | [] => []
  | [c] => [c]
  | c₁ :: c₂ :: rest =>
    if c₁ = ' ' ∧ c₂ = 'C' then replaceSC rest
    else c₁ :: replaceSC (c₂ :: rest)

/-- Numeric value of a digit string, most significant digit first. -/
def natOfDigits (l : List Char) : ℕ :=
  l.foldl (fun n c => 10 * n + (c.toNat - 48)) 0

/-- Leading and trailing spaces removed (Python `float`/`int` ignore the
surrounding whitespace of their argument). -/
def trimSpaces (s : List Char) : List Char :=
  ((s.dropWhile (· == ' ')).reverse.dropWhile (· == ' ')).reverse

/-- The unsigned part of a Python float literal: digits, optionally followed
by a point and further digits, at least one digit in total. The value is
`intpart.fracpart`, built with `mkRat` over integer arithmetic. -/
def parseUnsignedFloat (s : List Char) : Option ℚ :=
  match s.span Char.isDigit with
  | (ip, []) => if ip.isEmpty then none else some (mkRat (natOfDigits ip) 1)
  | (ip, '.' :: fp) =>
    if (ip.isEmpty && fp.isEmpty) || !fp.all Char.isDigit then none
    else some (mkRat (natOfDigits ip * 10 ^ fp.length + natOfDigits fp) (10 ^ fp.length))
  | _ => none

/-- Python `float(s)` on the plain decimal literals this pipeline handles:
surrounding spaces, an optional sign, digits with an optional fractional
part. `none` models the `ValueError` raised on any other content (letters,
interior spaces, empty remainder). -/
def parseFloat (s : List Char) : Option ℚ :=
  match trimSpaces s with
  | '-' :: rest => (parseUnsignedFloat rest).map (fun q => -q)
  | '+' :: rest => parseUnsignedFloat rest
  | t => parseUnsignedFloat t

/-- Python `int(s)`: surrounding spaces, an optional sign, then digits only;
`none` models the `ValueError`. -/
def parseInt (s : List Char) : Option ℤ :=
  match trimSpaces s with
  | '-' :: rest =>
    if !rest.isEmpty && rest.all Char.isDigit then some (-(natOfDigits rest : ℤ)) else none
  | '+' :: rest =>
    if !rest.isEmpty && rest.all Char.isDigit then some (natOfDigits rest) else none
  | t =>
    if !t.isEmpty && t.all Char.isDigit then some (natOfDigits t) else none

/-- A raw Kafka message after `json.loads` (line 83): either the
`json.JSONDecodeError` case (`malformed`), or a JSON object whose relevant
values are strings, modelled as an association list of fields. -/
inductive RawMessage
  | malformed : RawMessage
  | record : List (String × String) → RawMessage

/-- Field access `message_dict[k]` and the `k in message_dict` test: the
binding of `k`, if any. -/
def lookupField (fields : List (String × String)) (k : String) : Option String :=
  (fields.find? (fun p => p.1 == k)).map (fun p => p.2)

/-- The two per-message decode failures distinguished by lines 87-101 of
csv_consumer_davidrm.py. -/
inductive DecodeError
  | missingField : DecodeError
  | invalidNumericValue : DecodeError
deriving DecidableEq

/-- Embedding of lines 87-91 of csv_consumer_davidrm.py: require
`temperature` and `timestamp` to be present, strip the occurrences of " C"
from the temperature string, parse the remainder as a float and pair it with
the timestamp. -/
def decode_reading (fields : List (String × String)) : Except DecodeError (ℚ × String) :=
  match lookupField fields "temperature", lookupField fields "timestamp" with
  | some tempStr, some tsv =>
    match parseFloat (replaceSC tempStr.data) with
    | some q => Except.ok (q, tsv)
    | none => Except.error DecodeError.invalidNumericValue
  | _, _ => Except.error DecodeError.missingField

/-- The observable outcome of one `process_message` call: the three error
events logged at lines 101, 104 and 106, or a processed message carrying the
stall decision (`none` inside `processed` models `detect_stall` raising). -/
inductive Event
  | malformedPayload : Event
  | missingField : Event
  | invalidNumericValue : Event
  | processed : Option Bool → Event
deriving DecidableEq

/-- The three per-message decode failures of the error taxonomy: malformed
payload, missing field, invalid numeric value. -/
def Event.isDecodeError : Event → Bool
  | .malformedPayload => true
  | .missingField => true
  | .invalidNumericValue => true
  | .processed _ => false

/-- Embedding of `process_message` (lines 76-106), with the configuration
reads abstracted as `N` and `T`: on a successful decode the temperature is
appended to the rolling window and `detect_stall` is run on it; on any
failure the exception is caught, an error is logged, and the window is left
as it was. -/
def process_message (N : ℕ) (T : ℚ) (w : List ℚ) (msg : RawMessage) : List ℚ × Event :=
  match msg with
  | .malformed => (w, .malformedPayload)
  | .record fields =>
    match decode_reading fields with
    | .ok (temp, _) =>
      let w' := dequeAppend N w temp
      (w', .processed (detect_stall w' N T))
    | .error .missingField => (w, .missingField)
    | .error .invalidNumericValue => (w, .invalidNumericValue)

/-- The consumption loop of `main` (lines 127-131): each message is processed
in order, threading the rolling window through, one event per message. -/
def run_consumer (N : ℕ) (T : ℚ) (w : List ℚ) : List RawMessage → List ℚ × List Event
  | [] => (w, [])
  | m :: ms =>
    let r := process_message N T w m
    let rest := run_consumer N T r.1 ms
    (rest.1, r.2 :: rest.2)

/-- The process environment, as queried by `os.getenv`. -/
abbrev Env := List (String × String)

/-- Python `os.getenv(key)`: the first binding of `key`, if present. -/
def getenv (env : Env) (k : String) : Option String :=
  (env.find? (fun p => p.1 == k)).map (fun p => p.2)

/-- Embedding of `get_stall_threshold` (lines 38-43):
`float(os.getenv("SMOKER_STALL_THRESHOLD_F", 1.0))`, re-read from the
environment on every call; `none` models the `ValueError` raised when the
variable is set to a non-float string. -/
def get_stall_threshold (env : Env) : Option ℚ :=
  match getenv env "SMOKER_STALL_THRESHOLD_F" with
  | some s => parseFloat s.data
  | none => some 1

/-- Embedding of `get_rolling_window_size` (lines 45-49):
`int(os.getenv("SMOKER_ROLLING_WINDOW_SIZE", 5))`, re-read on every call.
Inside `detect_stall` a negative size behaves exactly like 0 (the comparison
`len < N` is false either way), so the size is returned as `ℕ` via `toNat`;
`none` models the `ValueError` on a non-integer string. -/
def get_rolling_window_size (env : Env) : Option ℕ :=
  match getenv env "SMOKER_ROLLING_WINDOW_SIZE" with
  | some s => (parseInt s.data).map Int.toNat
  | none => some 5

/-- Embedding of `detect_stall` as actually written (lines 55-69): the window
size and the threshold are fetched from the environment at every invocation,
not frozen at startup. `none` models an exception (unparsable environment
value, or empty `max`/`min`). -/
def detect_stall_env (env : Env) (w : List ℚ) : Option Bool :=
  match get_rolling_window_size env, get_stall_threshold env with
  | some N, some T => detect_stall w N T
  | _, _ => none

/-- The five messages of the end-to-end scenario: temperatures 225, 225.2,
225.1, 225.0, 225.3 in order. -/
def c8Messages : List RawMessage :=
  [RawMessage.record [("temperature", "225"), ("timestamp", "t1")],
   RawMessage.record [("temperature", "225.2"), ("timestamp", "t2")],
   RawMessage.record [("temperature", "225.1"), ("timestamp", "t3")],
   RawMessage.record [("temperature", "225.0"), ("timestamp", "t4")],
   RawMessage.record [("temperature", "225.3"), ("timestamp", "t5")]]

lemma dequeAppend_length_le (N : ℕ) (w : List ℚ) (x : ℚ) :
    (dequeAppend N w x).length ≤ N := by
  simp [dequeAppend]
  omega

lemma foldl_dequeAppend_eq (N : ℕ) :
    ∀ (vs w : List ℚ), w.length ≤ N →
      vs.foldl (dequeAppend N) w = (w ++ vs).drop ((w ++ vs).length - N)
  | [], w => by
    intro hw
    have h0 : w.length - N = 0 := by omega
    simp [List.foldl_nil, h0]
  | x :: vs, w => by
    intro hw
    have h₁ : (dequeAppend N w x).length ≤ N := dequeAppend_length_le N w x
    have ih := foldl_dequeAppend_eq N vs (dequeAppend N w x) h₁
    rw [List.foldl_cons, ih]
    unfold dequeAppend
    have ha : (w ++ [x]).length - N ≤ (w ++ [x]).length := Nat.sub_le _ _
    rw [← List.drop_append_of_le_length ha, List.drop_drop]
    have e2 : (w ++ [x]) ++ vs = w ++ x :: vs := by simp
    rw [e2]
    congr 1
    simp only [dequeAppend, List.length_drop, List.length_append, List.length_cons,
      List.length_nil]
    omega

/-- The snapshot of the rolling window is `vs.drop (vs.length - N)`: the last
`N` appended values (all of them when fewer than `N` have been appended). -/
lemma buildWindow_eq_drop (N : ℕ) (vs : List ℚ) :
    buildWindow N vs = vs.drop (vs.length - N) := by
  have h := foldl_dequeAppend_eq N vs [] (by simp)
  simpa [buildWindow] using h

lemma le_foldl_max : ∀ (xs : List ℚ) (a : ℚ), a ≤ xs.foldl max a
  | [], _ => le_rfl
  | x :: xs, a => le_trans (le_max_left a x) (le_foldl_max xs (max a x))

lemma mem_le_foldl_max : ∀ (xs : List ℚ) (a y : ℚ), y ∈ xs → y ≤ xs.foldl max a
  | [], _, y => fun h => absurd h (List.not_mem_nil y)
  | x :: xs, a, y => fun h => by
    rcases List.mem_cons.mp h with h' | h'
    · subst h'
      exact le_trans (le_max_right a y) (le_foldl_max xs _)
    · exact mem_le_foldl_max xs (max a x) y h'

lemma foldl_max_mem : ∀ (xs : List ℚ) (a : ℚ), xs.foldl max a = a ∨ xs.foldl max a ∈ xs
  | [], _ => Or.inl rfl
  | x :: xs, a => by
    rcases foldl_max_mem xs (max a x) with h | h
    · rcases max_choice a x with h' | h'
      · left
        rw [List.foldl_cons, h, h']
      · right
        rw [List.foldl_cons, h, h']
        exact List.mem_cons_self x xs
    · right
      exact List.mem_cons_of_mem x h

lemma foldl_min_le : ∀ (xs : List ℚ) (a : ℚ), xs.foldl min a ≤ a
  | [], _ => le_rfl
  | x :: xs, a => le_trans (foldl_min_le xs (min a x)) (min_le_left a x)

lemma foldl_min_le_mem : ∀ (xs : List ℚ) (a y : ℚ), y ∈ xs → xs.foldl min a ≤ y
  | [], _, y => fun h => absurd h (List.not_mem_nil y)
  | x :: xs, a, y => fun h => by
    rcases List.mem_cons.mp h with h' | h'
    · subst h'
      exact le_trans (foldl_min_le xs _) (min_le_right a y)
    · exact foldl_min_le_mem xs (min a x) y h'

lemma foldl_min_mem : ∀ (xs : List ℚ) (a : ℚ), xs.foldl min a = a ∨ xs.foldl min a ∈ xs
  | [], _ => Or.inl rfl
  | x :: xs, a => by
    rcases foldl_min_mem xs (min a x) with h | h
    · rcases min_choice a x with h' | h'
      · left
        rw [List.foldl_cons, h, h']
      · right
        rw [List.foldl_cons, h, h']
        exact List.mem_cons_self x xs
    · right
      exact List.mem_cons_of_mem x h

lemma pyMaxStep_eq_max (a b : ℚ) : pyMaxStep a b = max a b := by
  unfold pyMaxStep
  rw [max_def]
  rcases lt_trichotomy a b with h | h | h
  · rw [if_pos h, if_pos h.le]
  · subst h
    simp
  · rw [if_neg (not_lt_of_gt h), if_neg (not_le_of_gt h)]

lemma pyMinStep_eq_min (a b : ℚ) : pyMinStep a b = min a b := by
  unfold pyMinStep
  rw [min_def]
  rcases lt_trichotomy a b with h | h | h
  · rw [if_neg (not_lt_of_gt h), if_pos h.le]
  · subst h
    simp
  · rw [if_pos h, if_neg (not_le_of_gt h)]

lemma foldl_pyMaxStep_eq (xs : List ℚ) : ∀ a : ℚ, xs.foldl pyMaxStep a = xs.foldl max a := by
  induction xs with
  | nil => intro a; rfl
  | cons x xs ih =>
    intro a
    simp only [List.foldl_cons, pyMaxStep_eq_max]
    exact ih (max a x)

lemma foldl_pyMinStep_eq (xs : List ℚ) : ∀ a : ℚ, xs.foldl pyMinStep a = xs.foldl min a := by
  induction xs with
  | nil => intro a; rfl
  | cons x xs ih =>
    intro a
    simp only [List.foldl_cons, pyMinStep_eq_min]
    exact ih (min a x)

/-- Characterisation of `pyMax`: it returns a member of the list that bounds
every member from above, exactly as Python's `max` builtin does. -/
lemma pyMax_spec {l : List ℚ} {M : ℚ} (h : pyMax l = some M) :
    M ∈ l ∧ ∀ a ∈ l, a ≤ M := by
  cases l with
  | nil => simp [pyMax] at h
  | cons x xs =>
    have hM : M = xs.foldl max x := by
      simpa [pyMax, foldl_pyMaxStep_eq] using h.symm
    subst hM
    constructor
    · rcases foldl_max_mem xs x with h' | h'
      · rw [h']
        exact List.mem_cons_self x xs
      · exact List.mem_cons_of_mem x h'
    · intro a ha
      rcases List.mem_cons.mp ha with h' | h'
      · subst h'
        exact le_foldl_max xs a
      · exact mem_le_foldl_max xs x a h'

/-- Characterisation of `pyMin`, dual to `pyMax_spec`. -/
lemma pyMin_spec {l : List ℚ} {m : ℚ} (h : pyMin l = some m) :
    m ∈ l ∧ ∀ a ∈ l, m ≤ a := by
  cases l with
  | nil => simp [pyMin] at h
  | cons x xs =>
    have hm : m = xs.foldl min x := by
      simpa [pyMin, foldl_pyMinStep_eq] using h.symm
    subst hm
    constructor
    · rcases foldl_min_mem xs x with h' | h'
      · rw [h']
        exact List.mem_cons_self x xs
      · exact List.mem_cons_of_mem x h'
    · intro a ha
      rcases List.mem_cons.mp ha with h' | h'
      · subst h'
        exact foldl_min_le xs a
      · exact foldl_min_le_mem xs x a h'

lemma pyMax_perm {l₁ l₂ : List ℚ} (h : l₁.Perm l₂) : pyMax l₁ = pyMax l₂ := by
  cases l₁ with
  | nil =>
    have h2 : l₂ = [] := h.symm.eq_nil
    subst h2
    rfl
  | cons x xs =>
    cases l₂ with
    | nil => exact absurd h.eq_nil (List.cons_ne_nil x xs)
    | cons y ys =>
      obtain ⟨hm₁, hle₁⟩ := pyMax_spec (l := x :: xs) rfl
      obtain ⟨hm₂, hle₂⟩ := pyMax_spec (l := y :: ys) rfl
      simp only [pyMax, Option.some.injEq]
      exact le_antisymm (hle₂ _ (h.mem_iff.mp hm₁)) (hle₁ _ (h.mem_iff.mpr hm₂))

lemma pyMin_perm {l₁ l₂ : List ℚ} (h : l₁.Perm l₂) : pyMin l₁ = pyMin l₂ := by
  cases l₁ with
  | nil =>
    have h2 : l₂ = [] := h.symm.eq_nil
    subst h2
    rfl
  | cons x xs =>
    cases l₂ with
    | nil => exact absurd h.eq_nil (List.cons_ne_nil x xs)
    | cons y ys =>
      obtain ⟨hm₁, hle₁⟩ := pyMin_spec (l := x :: xs) rfl
      obtain ⟨hm₂, hle₂⟩ := pyMin_spec (l := y :: ys) rfl
      simp only [pyMin, Option.some.injEq]
      exact le_antisymm (hle₁ _ (h.mem_iff.mpr hm₂)) (hle₂ _ (h.mem_iff.mp hm₁))

lemma replaceSC_cons_ne (c : Char) (l : List Char) (hc : ¬ c = ' ') :
    replaceSC (c :: l) = c :: replaceSC l := by
  cases l with
  | nil => rfl
  | cons d rest =>
    have h' : ¬ (c = ' ' ∧ d = 'C') := fun hand => hc hand.1
    simp only [replaceSC, if_neg h']

/-- Appending the exact suffix " C" to a space-free string is undone by the
replacement of " C" with the empty string. -/
lemma replaceSC_append_unit {s : List Char} (h : ' ' ∉ s) :
    replaceSC (s ++ [' ', 'C']) = s := by
  induction s with
  | nil => decide
  | cons c s ih =>
    have hc : ¬ c = ' ' := fun hc => h (List.mem_cons.mpr (Or.inl hc.symm))
    rw [List.cons_append, replaceSC_cons_ne c _ hc,
      ih (fun hm => h (List.mem_cons_of_mem c hm))]

/-- Evaluation of `decode_reading` on a well-formed two-field record. -/
lemma decode_reading_fields (tempStr tsv : String) :
    decode_reading [("temperature", tempStr), ("timestamp", tsv)] =
      match parseFloat (replaceSC tempStr.data) with
      | some q => Except.ok (q, tsv)
      | none => Except.error DecodeError.invalidNumericValue := rfl

/-- C1: on a full window (held count equal to the configured window size `N`,
`N` positive), `detect_stall` computes the range `max(window) - min(window)`
and returns stalled = true if and only if that range is at most the threshold
`T`, with range exactly `T` counting as stalled (inclusive boundary); in
particular the window `[100, 100, 101, 100, 100]` with `N = 5`, `T = 1` has
range `1` and is declared stalled. -/
theorem detect_stall_full_window_decision (w : List ℚ) (N : ℕ) (T : ℚ)
    (hN : 0 < N) (hw : w.length = N) :
    (∃ mx mn, pyMax w = some mx ∧ pyMin w = some mn ∧
      temp_range w = some (mx - mn) ∧
      (detect_stall w N T = some true ↔ mx - mn ≤ T)) ∧
    detect_stall [100, 100, 101, 100, 100] 5 1 = some true ∧
    temp_range [100, 100, 101, 100, 100] = some 1 := by
  refine ⟨?_, ?_, ?_⟩
  · obtain ⟨x, xs, rfl⟩ : ∃ x xs, w = x :: xs := by
      cases w with
      | nil =>
        simp at hw
        omega
      | cons x xs => exact ⟨x, xs, rfl⟩
    refine ⟨xs.foldl pyMaxStep x, xs.foldl pyMinStep x, rfl, rfl, rfl, ?_⟩
    simp [detect_stall, hw, pyMax, pyMin]
  · decide
  · decide

theorem detect_stall_full_window_decision_witness :
    0 < 5 ∧ ([100, 100, 101, 100, 100] : List ℚ).length = 5 ∧
    ((∃ mx mn, pyMax [100, 100, 101, 100, 100] = some mx ∧
        pyMin [100, 100, 101, 100, 100] = some mn ∧
        temp_range [100, 100, 101, 100, 100] = some (mx - mn) ∧
        (detect_stall [100, 100, 101, 100, 100] 5 1 = some true ↔ mx - mn ≤ 1)) ∧
      detect_stall [100, 100, 101, 100, 100] 5 1 = some true ∧
      temp_range [100, 100, 101, 100, 100] = some 1) :=
  ⟨by decide, rfl,
    detect_stall_full_window_decision [100, 100, 101, 100, 100] 5 1 (by decide) rfl⟩

/-- C2: whenever the held count of the window is strictly below the configured
window size `N`, `detect_stall` returns false, whatever the held values are. -/
theorem detect_stall_not_full (w : List ℚ) (N : ℕ) (T : ℚ) (h : w.length < N) :
    detect_stall w N T = some false := by
  simp [detect_stall, h]

theorem detect_stall_not_full_witness :
    ([1, 2] : List ℚ).length < 5 ∧ detect_stall [1, 2] 5 1 = some false :=
  ⟨by decide, detect_stall_not_full [1, 2] 5 1 (by decide)⟩

/-- C3: after any sequence of appends to a fresh `deque(maxlen=N)`, the length
of the snapshot never exceeds `N` and equals the minimum of the number of
appends performed so far and `N`. -/
theorem buildWindow_length (N : ℕ) (vs : List ℚ) :
    (buildWindow N vs).length ≤ N ∧ (buildWindow N vs).length = min vs.length N := by
  rw [buildWindow_eq_drop]
  simp only [List.length_drop]
  omega

/-- C4: when `k > N` values are appended to a fresh `deque(maxlen=N)`, the
snapshot is exactly the last `N` of them in their original relative order
(strict FIFO eviction of the oldest, no re-sorting). -/
theorem buildWindow_fifo (N : ℕ) (vs : List ℚ) (h : N < vs.length) :
    buildWindow N vs = vs.drop (vs.length - N) ∧ (buildWindow N vs).length = N := by
  refine ⟨buildWindow_eq_drop N vs, ?_⟩
  rw [buildWindow_eq_drop]
  simp only [List.length_drop]
  omega

theorem buildWindow_fifo_witness :
    2 < ([1, 2, 3] : List ℚ).length ∧
    (buildWindow 2 [1, 2, 3] = ([1, 2, 3] : List ℚ).drop (([1, 2, 3] : List ℚ).length - 2) ∧
      (buildWindow 2 [1, 2, 3]).length = 2) :=
  ⟨by decide, buildWindow_fifo 2 [1, 2, 3] (by decide)⟩

/-- C5 counterexample: the decoder strips only the exact suffix " C", not
arbitrary unit suffixes; the payload with temperature "225.5 F" named by the
claim is rejected as an invalid numeric value instead of decoding to the
reading (225.5, "t2") (note `mkRat 451 2 = 225.5`). -/
theorem decode_reading_unit_suffix_cex :
    decode_reading [("temperature", "225.5 F"), ("timestamp", "t2")] =
      Except.error DecodeError.invalidNumericValue ∧
    decode_reading [("temperature", "225.5 F"), ("timestamp", "t2")] ≠
      Except.ok (mkRat 451 2, "t2") := by
  exact ⟨by decide, by decide⟩

/-- C5 amended: the decoder removes only occurrences of the exact
two-character substring " C" before parsing, so a temperature string made of
a space-free valid float literal followed by the suffix " C" decodes to that
float paired with the timestamp; in particular "225.5 C" decodes to
`mkRat 451 2 = 225.5` with timestamp "t2", while other suffixes such as " F"
are rejected. -/
theorem decode_reading_strips_C_only (s : List Char) (q : ℚ) (tsv : String)
    (hs : ' ' ∉ s) (hq : parseFloat s = some q) :
    decode_reading [("temperature", String.mk (s ++ [' ', 'C'])), ("timestamp", tsv)] =
      Except.ok (q, tsv) ∧
    decode_reading [("temperature", "225.5 C"), ("timestamp", "t2")] =
      Except.ok (mkRat 451 2, "t2") := by
  refine ⟨?_, by decide⟩
  rw [decode_reading_fields]
  have e : replaceSC (String.mk (s ++ [' ', 'C'])).data = s := replaceSC_append_unit hs
  rw [e, hq]

theorem decode_reading_strips_C_only_witness :
    ' ' ∉ ("225.5" : String).data ∧
    parseFloat ("225.5" : String).data = some (mkRat 451 2) ∧
    (decode_reading [("temperature", String.mk (("225.5" : String).data ++ [' ', 'C'])),
        ("timestamp", "t2")] = Except.ok (mkRat 451 2, "t2") ∧
      decode_reading [("temperature", "225.5 C"), ("timestamp", "t2")] =
        Except.ok (mkRat 451 2, "t2")) :=
  ⟨by decide, by decide, decode_reading_strips_C_only _ _ _ (by decide) (by decide)⟩

/-- C6: a message whose processing fails (malformed payload, missing
temperature or timestamp field, or invalid numeric value) leaves the rolling
window unchanged and does not terminate the loop: the failing message
contributes exactly its error event, and the remaining messages are processed
from the intact window. -/
theorem process_message_error_isolation (N : ℕ) (T : ℚ) (w : List ℚ)
    (m : RawMessage) (rest : List RawMessage)
    (h : (process_message N T w m).2.isDecodeError = true) :
    (process_message N T w m).1 = w ∧
    run_consumer N T w (m :: rest) =
      ((run_consumer N T w rest).1,
        (process_message N T w m).2 :: (run_consumer N T w rest).2) := by
  have hw : (process_message N T w m).1 = w := by
    cases m with
    | malformed => rfl
    | record fields =>
      cases hd : decode_reading fields with
      | ok v =>
        obtain ⟨q, ts⟩ := v
        simp [process_message, hd, Event.isDecodeError] at h
      | error e =>
        cases e with
        | missingField => simp [process_message, hd]
        | invalidNumericValue => simp [process_message, hd]
  refine ⟨hw, ?_⟩
  simp only [run_consumer]
  rw [hw]

theorem process_message_error_isolation_witness :
    (process_message 5 1 [1] (RawMessage.record [("timestamp", "t1")])).2.isDecodeError =
      true ∧
    ((process_message 5 1 [1] (RawMessage.record [("timestamp", "t1")])).1 = [1] ∧
      run_consumer 5 1 [1] (RawMessage.record [("timestamp", "t1")] ::
          [RawMessage.record [("temperature", "2"), ("timestamp", "t2")]]) =
        ((run_consumer 5 1 [1]
            [RawMessage.record [("temperature", "2"), ("timestamp", "t2")]]).1,
          (process_message 5 1 [1] (RawMessage.record [("timestamp", "t1")])).2 ::
            (run_consumer 5 1 [1]
              [RawMessage.record [("temperature", "2"), ("timestamp", "t2")]]).2)) :=
  ⟨by decide, process_message_error_isolation 5 1 [1] _ _ (by decide)⟩

/-- C7 counterexample: under one and the same startup configuration (window
size 5, threshold 1.0), changing `SMOKER_STALL_THRESHOLD_F` in the
environment between two invocations changes the decision on the very same
window, because `detect_stall` re-reads the environment on every call; the
claim that the two decisions are always equal is false. -/
theorem detect_stall_env_change_cex :
    detect_stall_env
        [("SMOKER_STALL_THRESHOLD_F", "1.0"), ("SMOKER_ROLLING_WINDOW_SIZE", "5")]
        [100, 102, 100, 100, 100] = some false ∧
    detect_stall_env
        [("SMOKER_STALL_THRESHOLD_F", "3.0"), ("SMOKER_ROLLING_WINDOW_SIZE", "5")]
        [100, 102, 100, 100, 100] = some true ∧
    detect_stall_env
        [("SMOKER_STALL_THRESHOLD_F", "1.0"), ("SMOKER_ROLLING_WINDOW_SIZE", "5")]
        [100, 102, 100, 100, 100] ≠
      detect_stall_env
        [("SMOKER_STALL_THRESHOLD_F", "3.0"), ("SMOKER_ROLLING_WINDOW_SIZE", "5")]
        [100, 102, 100, 100, 100] := by
  exact ⟨by decide, by decide, by decide⟩

/-- C7 amended: the detector re-reads `SMOKER_STALL_THRESHOLD_F` and
`SMOKER_ROLLING_WINDOW_SIZE` from the environment at each invocation (the
configuration is not frozen at startup); it is a pure function of the window
snapshot and of those two environment values at invocation time: any two
invocations on the same window whose environments agree on those two
variables produce the same decision, no matter how the other environment
variables differ. -/
theorem detect_stall_env_config_only (e₁ e₂ : Env) (w : List ℚ)
    (hT : getenv e₁ "SMOKER_STALL_THRESHOLD_F" = getenv e₂ "SMOKER_STALL_THRESHOLD_F")
    (hN : getenv e₁ "SMOKER_ROLLING_WINDOW_SIZE" = getenv e₂ "SMOKER_ROLLING_WINDOW_SIZE") :
    detect_stall_env e₁ w = detect_stall_env e₂ w := by
  simp only [detect_stall_env, get_stall_threshold, get_rolling_window_size, hT, hN]

theorem detect_stall_env_config_only_witness :
    getenv [("SMOKER_TOPIC", "a"), ("SMOKER_STALL_THRESHOLD_F", "1.0")]
        "SMOKER_STALL_THRESHOLD_F" =
      getenv [("SMOKER_TOPIC", "b"), ("SMOKER_STALL_THRESHOLD_F", "1.0")]
        "SMOKER_STALL_THRESHOLD_F" ∧
    getenv [("SMOKER_TOPIC", "a"), ("SMOKER_STALL_THRESHOLD_F", "1.0")]
        "SMOKER_ROLLING_WINDOW_SIZE" =
      getenv [("SMOKER_TOPIC", "b"), ("SMOKER_STALL_THRESHOLD_F", "1.0")]
        "SMOKER_ROLLING_WINDOW_SIZE" ∧
    detect_stall_env [("SMOKER_TOPIC", "a"), ("SMOKER_STALL_THRESHOLD_F", "1.0")] [1] =
      detect_stall_env [("SMOKER_TOPIC", "b"), ("SMOKER_STALL_THRESHOLD_F", "1.0")] [1] :=
  ⟨by decide, by decide,
    detect_stall_env_config_only _ _ [1] (by decide) (by decide)⟩

/-- C8: feeding the five messages with temperatures 225, 225.2, 225.1, 225.0,
225.3 in order through the pipeline with window size 5 and threshold 1 ends
with a final decision of stalled = true, the final window having range
`mkRat 3 10 = 0.3`. -/
theorem end_to_end_stall_range :
    (run_consumer 5 1 [] c8Messages).2.getLast? = some (Event.processed (some true)) ∧
    temp_range (run_consumer 5 1 [] c8Messages).1 = some (mkRat 3 10) := by
  decide

/-- C9: as long as the configured window size `N` is at least 1, the detector
is total: it never evaluates `max`/`min` on an empty window (the `none` value
modelling that exception is never returned), since any window shorter than
`N` is answered early with false and the remaining windows are nonempty. -/
theorem detect_stall_total (w : List ℚ) (N : ℕ) (T : ℚ) (hN : 1 ≤ N) :
    (detect_stall w N T).isSome = true := by
  by_cases h : w.length < N
  · simp [detect_stall, h]
  · cases w with
    | nil =>
      simp at h
      omega
    | cons x xs =>
      simp only [detect_stall]
      rw [if_neg h]
      rfl

theorem detect_stall_total_witness :
    1 ≤ 5 ∧ (detect_stall [] 5 1).isSome = true :=
  ⟨by decide, detect_stall_total [] 5 1 (by decide)⟩

/-- C10: the stall decision and the computed range are invariant under
permutation of a full window's contents, because they depend only on the
maximum and minimum of the held values. -/
theorem detect_stall_perm_invariant (w₁ w₂ : List ℚ) (N : ℕ) (T : ℚ)
    (hp : w₁.Perm w₂) (hw : w₁.length = N) :
    detect_stall w₁ N T = detect_stall w₂ N T ∧ temp_range w₁ = temp_range w₂ := by
  have hmax := pyMax_perm hp
  have hmin := pyMin_perm hp
  have hlen := hp.length_eq
  constructor
  · simp only [detect_stall, hlen, hmax, hmin]
  · simp only [temp_range, hmax, hmin]

theorem detect_stall_perm_invariant_witness :
    ([1, 2] : List ℚ).Perm [2, 1] ∧ ([1, 2] : List ℚ).length = 2 ∧
    (detect_stall [1, 2] 2 1 = detect_stall [2, 1] 2 1 ∧
      temp_range [1, 2] = temp_range [2, 1]) :=
  ⟨by decide, rfl, detect_stall_perm_invariant [1, 2] [2, 1] 2 1 (by decide) rfl⟩
